import Mathlib

/-!
Verification of the PlanOpticon knowledge-graph subsystem.

This file shallowly embeds the in-process graph store
(video_processor/integrators/graph_store.py, class InMemoryStore), the
knowledge-graph integration layer
(video_processor/integrators/knowledge_graph.py, class KnowledgeGraph) and
the query engine (video_processor/integrators/graph_query.py, class
GraphQueryEngine) as executable Lean definitions, and proves the stated
properties about them.

Python dicts are modelled as association lists in insertion order (keys are
unique in every reachable state, and lookup returns the first match), Python
sets of strings as duplicate-free lists with membership-based semantics, and
Python string operations (lower, substring containment, slicing) as the
corresponding Lean string functions.
-/

namespace PlanOpticon

/-- Does the character list s start with the character list p. -/
def charsBegins : List Char → List Char → Bool
  | [], _ => true
  | _ :: _, [] => false
  | p :: ps, c :: cs => p == c && charsBegins ps cs

/-- Does the character list s contain p as a contiguous sublist. -/
def charsHasSub (p : List Char) : List Char → Bool
  | [] => p.isEmpty
  | c :: rest => charsBegins p (c :: rest) || charsHasSub p rest

/-- Python membership test sub in s for strings (substring containment). -/
def strContains (s sub : String) : Bool :=
  charsHasSub sub.data s.data

/-- Python str.lower, modelled characterwise (computable and reducible,
unlike the bytewise String.toLower of the standard library). -/
def strLower (s : String) : String :=
  String.mk (s.data.map Char.toLower)

/-- Python set.update: add each element of ds that is not yet present. -/
def setUpdate (s ds : List String) : List String :=
  ds.foldl (fun acc d => if d ∈ acc then acc else acc ++ [d]) s

/-- First-match lookup in an association list (Python dict access). -/
def lookupKey {α : Type} (k : String) : List (String × α) → Option α
  | [] => none
  | (k0, v) :: rest => if k0 = k then some v else lookupKey k rest

/-- Replace the value stored under the first occurrence of key k. -/
def setKey {α : Type} (k : String) (f : α → α) : List (String × α) → List (String × α)
  | [] => []
  | (k0, v) :: rest => if k0 = k then (k0, f v) :: rest else (k0, v) :: setKey k f rest

/-- An occurrence record: source tag, optional timestamp, optional text snippet. -/
structure Occurrence where
  source : String
  timestamp : Option Int
  text : Option String
deriving Repr, DecidableEq

/-- An entity node as stored by InMemoryStore.merge_entity. -/
structure Node where
  id : String
  name : String
  type : String
  descriptions : List String
  occurrences : List Occurrence
  source : Option String
deriving Repr, DecidableEq

/-- A relationship record as stored by InMemoryStore.add_relationship. -/
structure Rel where
  source : String
  target : String
  type : String
  content_source : Option String
  timestamp : Option Int
deriving Repr, DecidableEq

/-- The in-process backend: nodes keyed by lowercased name, plus an
append-only relationship list (InMemoryStore in graph_store.py). -/
structure InMemoryStore where
  nodes : List (String × Node)
  relationships : List Rel
deriving Repr, DecidableEq

namespace InMemoryStore

/-- A freshly constructed InMemoryStore. -/
def empty : InMemoryStore := ⟨[], []⟩

/-- InMemoryStore.merge_entity: upsert by case-insensitive name; on an
existing entity union the descriptions (when the supplied list is nonempty),
on a new entity create it with an empty occurrence sequence. -/
def mergeEntity (st : InMemoryStore) (name entityType : String)
    (descriptions : List String) (source : Option String) : InMemoryStore :=
  let key := strLower name
  let addDescs := fun (n : Node) =>
    { n with descriptions := setUpdate n.descriptions descriptions }
  match lookupKey key st.nodes with
  | some _ =>
      if descriptions.isEmpty then st
      else { st with nodes := setKey key addDescs st.nodes }
  | none =>
      { st with nodes := st.nodes ++
          [(key, { id := name, name := name, type := entityType,
                   descriptions := setUpdate [] descriptions, occurrences := [],
                   source := source })] }

/-- InMemoryStore.add_occurrence: append to an existing entity, silently
no-op when the entity does not exist. -/
def addOccurrence (st : InMemoryStore) (entityName source : String)
    (timestamp : Option Int) (text : Option String) : InMemoryStore :=
  let key := strLower entityName
  let addOcc := fun (n : Node) =>
    { n with occurrences := n.occurrences ++ [⟨source, timestamp, text⟩] }
  match lookupKey key st.nodes with
  | some _ => { st with nodes := setKey key addOcc st.nodes }
  | none => st

/-- InMemoryStore.add_relationship: unconditionally append one record,
with no existence check on the endpoints. -/
def addRelationship (st : InMemoryStore) (source target relType : String)
    (contentSource : Option String) (timestamp : Option Int) : InMemoryStore :=
  { st with relationships :=
      st.relationships ++ [⟨source, target, relType, contentSource, timestamp⟩] }

/-- InMemoryStore.get_entity: case-insensitive lookup. -/
def getEntity (st : InMemoryStore) (name : String) : Option Node :=
  lookupKey (strLower name) st.nodes

/-- InMemoryStore.get_all_entities. -/
def getAllEntities (st : InMemoryStore) : List Node :=
  st.nodes.map (·.2)

/-- InMemoryStore.get_entity_count. -/
def getEntityCount (st : InMemoryStore) : Nat :=
  st.nodes.length

/-- InMemoryStore.get_relationship_count. -/
def getRelationshipCount (st : InMemoryStore) : Nat :=
  st.relationships.length

/-- InMemoryStore.has_entity. -/
def hasEntity (st : InMemoryStore) (name : String) : Bool :=
  (lookupKey (strLower name) st.nodes).isSome

end InMemoryStore

/-- A node of the exported snapshot dict (GraphStore.to_dict). -/
structure SnapNode where
  id : String
  name : String
  type : String
  descriptions : List String
  occurrences : List Occurrence
deriving Repr, DecidableEq

/-- The serializable snapshot tree: nodes plus relationships. -/
structure Snapshot where
  nodes : List SnapNode
  relationships : List Rel
deriving Repr, DecidableEq

/-- GraphStore.to_dict applied to the in-process backend: materialize each
entity (the description set becomes a list) together with all relationships. -/
def InMemoryStore.toDict (st : InMemoryStore) : Snapshot :=
  { nodes := st.nodes.map (fun p =>
      { id := p.2.id, name := p.2.name, type := p.2.type,
        descriptions := p.2.descriptions, occurrences := p.2.occurrences }),
    relationships := st.relationships }

/-- One node step of GraphQueryEngine.from_json_path: merge the node by
name, then append each of its occurrences. -/
def rebuildNode (st : InMemoryStore) (node : SnapNode) : InMemoryStore :=
  let st1 := st.mergeEntity node.name node.type node.descriptions none
  node.occurrences.foldl
    (fun s occ => s.addOccurrence node.name occ.source occ.timestamp occ.text) st1

/-- GraphQueryEngine.from_json_path reconstruction: rebuild every node,
then append every relationship, into a fresh InMemoryStore. -/
def rebuildStore (snap : Snapshot) : InMemoryStore :=
  let st := snap.nodes.foldl rebuildNode InMemoryStore.empty
  snap.relationships.foldl
    (fun s r => s.addRelationship r.source r.target r.type r.content_source r.timestamp) st

/-- An item of the mixed list returned by neighbors: an entity dict or a
relationship dict. -/
inductive NRItem
  | ent (n : Node)
  | rel (r : Rel)
deriving Repr, DecidableEq

/-- The data payload of a QueryResult: nothing, an entity list, a
relationship list, the mixed neighbors list, or the stats dict. -/
inductive GData
  | nodata
  | entList (l : List Node)
  | relList (l : List Rel)
  | mixed (l : List NRItem)
  | statsData (entityCount relationshipCount : Nat) (entityTypes : List (String × Nat))
deriving Repr, DecidableEq

/-- The uniform query-result wrapper (dataclass QueryResult). -/
structure QueryResult where
  data : GData
  queryType : String
  rawQuery : String
  explanation : String
deriving Repr, DecidableEq

namespace GraphQueryEngine

/-- The truthiness test Python applies to an optional string filter: an
absent filter and an empty-string filter are both falsy and disable the
corresponding check. -/
def givenF : Option String → Bool
  | none => false
  | some s => !(s == "")

/-- The per-entity filter of GraphQueryEngine.entities: keep e unless a
truthy name filter fails the case-insensitive substring test, or a truthy
type filter fails the case-insensitive equality test. -/
def passesFilters (nameF typeF : Option String) (e : Node) : Bool :=
  (match nameF with
   | none => true
   | some nf => nf == "" || strContains (strLower e.name) (strLower nf))
  &&
  (match typeF with
   | none => true
   | some tf => tf == "" || strLower tf == strLower e.type)

/-- The accumulation loop shared by the filter queries: append each passing
record, stopping as soon as the accumulated length reaches the limit (the
length test runs after the append, as in the source loop). -/
def filterLimit (p : Node → Bool) (limit : Nat) : List Node → List Node → List Node
  | [], acc => acc
  | e :: rest, acc =>
      if p e then
        let acc2 := acc ++ [e]
        if limit ≤ acc2.length then acc2 else filterLimit p limit rest acc2
      else filterLimit p limit rest acc

/-- The record list computed by GraphQueryEngine.entities. -/
def entitiesResults (st : InMemoryStore) (name entityType : Option String)
    (limit : Nat) : List Node :=
  filterLimit (passesFilters name entityType) limit st.getAllEntities []

/-- GraphQueryEngine.entities: filter by name substring and by type,
capped at limit. -/
def entities (st : InMemoryStore) (name entityType : Option String)
    (limit : Nat) : QueryResult :=
  let results := entitiesResults st name entityType limit
  { data := .entList results, queryType := "filter",
    rawQuery := "entities",
    explanation := "Found " ++ toString results.length ++ " entities" }

/-- The per-relationship filter of GraphQueryEngine.relationships. -/
def relPasses (sourceF targetF typeF : Option String) (r : Rel) : Bool :=
  (match sourceF with
   | none => true
   | some sf => sf == "" || strContains (strLower r.source) (strLower sf))
  &&
  (match targetF with
   | none => true
   | some tf => tf == "" || strContains (strLower r.target) (strLower tf))
  &&
  (match typeF with
   | none => true
   | some rf => rf == "" || strContains (strLower r.type) (strLower rf))

/-- The relationship analogue of filterLimit. -/
def relFilterLimit (p : Rel → Bool) (limit : Nat) : List Rel → List Rel → List Rel
  | [], acc => acc
  | r :: rest, acc =>
      if p r then
        let acc2 := acc ++ [r]
        if limit ≤ acc2.length then acc2 else relFilterLimit p limit rest acc2
      else relFilterLimit p limit rest acc

/-- GraphQueryEngine.relationships. -/
def relationships (st : InMemoryStore) (source target relType : Option String)
    (limit : Nat) : QueryResult :=
  let results := relFilterLimit (relPasses source target relType) limit st.relationships []
  { data := .relList results, queryType := "filter",
    rawQuery := "relationships",
    explanation := "Found " ++ toString results.length ++ " relationships" }

/-- The mutable state of the neighbors traversal loop. -/
structure HopState where
  visited : List String
  nextFrontier : List String
  resultEntities : List Node
  resultRels : List Rel
deriving Repr, DecidableEq

/-- The per-endpoint body of the neighbors loop: an unvisited endpoint is
marked visited, queued for the next frontier, and its entity record (when
it resolves) appended. -/
def processEndpoint (st : InMemoryStore) (s : HopState) (n : String) : HopState :=
  if n ∈ s.visited then s
  else
    let s2 := { s with visited := s.visited ++ [n], nextFrontier := s.nextFrontier ++ [n] }
    match st.getEntity n with
    | some e => { s2 with resultEntities := s2.resultEntities ++ [e] }
    | none => s2

/-- The per-relationship body of the neighbors loop: a relationship with an
endpoint in the frontier is collected, and both endpoints processed. -/
def processRel (st : InMemoryStore) (frontier : List String) (s : HopState)
    (r : Rel) : HopState :=
  let srcL := strLower r.source
  let tgtL := strLower r.target
  if srcL ∈ frontier || tgtL ∈ frontier then
    let s2 := { s with resultRels := s.resultRels ++ [r] }
    processEndpoint st (processEndpoint st s2 srcL) tgtL
  else s

/-- The depth-bounded hop loop of neighbors. -/
def neighborsLoop (st : InMemoryStore) : Nat → List String → HopState → HopState
  | 0, _, s => s
  | d + 1, frontier, s =>
      let s2 := st.relationships.foldl (processRel st frontier) { s with nextFrontier := [] }
      neighborsLoop st d s2.nextFrontier s2

/-- GraphQueryEngine.neighbors: breadth-first traversal from a seed entity;
a missing seed yields empty data plus an explanatory message. -/
def neighbors (st : InMemoryStore) (entityName : String) (depth : Nat) : QueryResult :=
  match st.getEntity entityName with
  | none =>
      { data := .mixed [], queryType := "filter",
        rawQuery := "neighbors(" ++ entityName ++ ")",
        explanation := "Entity \x27" ++ entityName ++ "\x27 not found" }
  | some entity =>
      let s0 : HopState := ⟨[strLower entityName], [], [entity], []⟩
      let fin := neighborsLoop st depth [strLower entityName] s0
      { data := .mixed (fin.resultEntities.map NRItem.ent ++ fin.resultRels.map NRItem.rel),
        queryType := "filter",
        rawQuery := "neighbors(" ++ entityName ++ ")",
        explanation := "Found " ++ toString fin.resultEntities.length
          ++ " entities and " ++ toString fin.resultRels.length ++ " relationships" }

/-- One step of the type-breakdown accumulation in stats. -/
def bumpType (m : List (String × Nat)) (t : String) : List (String × Nat) :=
  match lookupKey t m with
  | some _ => setKey t (· + 1) m
  | none => m ++ [(t, 1)]

/-- The type breakdown dict computed by stats. -/
def typeBreakdown (es : List Node) : List (String × Nat) :=
  es.foldl (fun m e => bumpType m e.type) []

/-- GraphQueryEngine.stats. -/
def stats (st : InMemoryStore) : QueryResult :=
  { data := .statsData st.getEntityCount st.getRelationshipCount
      (typeBreakdown st.getAllEntities),
    queryType := "filter", rawQuery := "stats()",
    explanation := "Knowledge graph statistics" }

/-- The closed action menu the planner may choose from, as parsed from the
plan-stage JSON. otherA covers any unrecognized action string. -/
inductive AskPlan
  | entitiesA (name entityType : Option String)
  | relationshipsA (source target relType : Option String)
  | neighborsA (entityName : String) (depth : Nat)
  | statsA
  | otherA (action : String)
deriving Repr, DecidableEq

/-- GraphQueryEngine.ask, with the two language-model stages supplied as
parameters: planStage is the outcome of the plan call already parsed (error
for a raised chat call, ok none for unparsable output, ok some for a parsed
plan), and synthStage the outcome of the synthesis call on the executed
query result. The dispatch, the fallback on synthesis failure, and the
shapes of all returned results follow the source. -/
def ask (st : InMemoryStore) (question : String)
    (planStage : Except String (Option AskPlan))
    (synthStage : QueryResult → Except String String) : QueryResult :=
  match planStage with
  | .error e =>
      { data := .nodata, queryType := "agentic", rawQuery := question,
        explanation := "LLM query planning failed: " ++ e }
  | .ok none =>
      { data := .nodata, queryType := "agentic", rawQuery := question,
        explanation := "Could not parse LLM query plan from response." }
  | .ok (some plan) =>
      let result? : Option QueryResult :=
        match plan with
        | .entitiesA n t => some (entities st n t 50)
        | .relationshipsA s t r => some (relationships st s t r 50)
        | .neighborsA n d => some (neighbors st n d)
        | .statsA => some (stats st)
        | .otherA _ => none
      match result? with
      | none =>
          { data := .nodata, queryType := "agentic", rawQuery := question,
            explanation := "Unknown action in plan" }
      | some result =>
          match synthStage result with
          | .ok answer =>
              { data := result.data, queryType := "agentic", rawQuery := question,
                explanation := answer.trim }
          | .error e =>
              { result with
                queryType := "agentic"
                explanation := "LLM synthesis failed (" ++ e ++ "), showing raw results" }

end GraphQueryEngine

/-- An extracted entity candidate (models.Entity as consumed by
add_content). -/
structure Entity where
  name : String
  type : String
  descriptions : List String
deriving Repr, DecidableEq

/-- An extracted relationship candidate (models.Relationship). -/
structure Relationship where
  source : String
  target : String
  type : String
deriving Repr, DecidableEq

/-- A node of the integration-layer graph (the dicts held in
KnowledgeGraph.nodes). -/
structure KGNode where
  id : String
  name : String
  type : String
  descriptions : List String
  occurrences : List Occurrence
deriving Repr, DecidableEq

/-- The integration-layer graph: nodes keyed by the exact entity name, plus
a relationship list (class KnowledgeGraph). -/
structure KnowledgeGraph where
  nodes : List (String × KGNode)
  relationships : List Rel
deriving Repr, DecidableEq

/-- The snippet truncation applied when recording an occurrence: the first
100 characters followed by an ellipsis marker when the text is longer. -/
def truncateText (text : String) : String :=
  if 100 < text.length then String.mk (text.data.take 100) ++ "..." else text

namespace KnowledgeGraph

/-- The per-entity body of add_content: an existing node (looked up by the
exact name string) gets one appended occurrence and a description union; a
new node is created keyed by the exact name with one occurrence. -/
def addContentEntity (kg : KnowledgeGraph) (text source : String)
    (timestamp : Option Int) (entity : Entity) : KnowledgeGraph :=
  let eid := entity.name
  let occ : Occurrence := ⟨source, timestamp, some (truncateText text)⟩
  let appendOcc := fun (n : KGNode) => { n with occurrences := n.occurrences ++ [occ] }
  let addDescs := fun (n : KGNode) =>
    { n with descriptions := setUpdate n.descriptions entity.descriptions }
  match lookupKey eid kg.nodes with
  | some _ =>
      let kg2 := { kg with nodes := setKey eid appendOcc kg.nodes }
      if entity.descriptions.isEmpty then kg2
      else { kg2 with nodes := setKey eid addDescs kg2.nodes }
  | none =>
      { kg with nodes := kg.nodes ++
          [(eid, { id := eid, name := entity.name, type := entity.type,
                   descriptions := setUpdate [] entity.descriptions,
                   occurrences := [occ] })] }

/-- The per-relationship body of add_content: stored only when both
endpoints are present as exact node keys. -/
def addContentRel (kg : KnowledgeGraph) (source : String) (timestamp : Option Int)
    (r : Relationship) : KnowledgeGraph :=
  if (lookupKey r.source kg.nodes).isSome && (lookupKey r.target kg.nodes).isSome then
    { kg with relationships :=
        kg.relationships ++ [⟨r.source, r.target, r.type, some source, timestamp⟩] }
  else kg

/-- KnowledgeGraph.add_content, with the extraction call modelled by its
result (the entity and relationship lists the model returned). -/
def addContent (kg : KnowledgeGraph) (extracted : List Entity × List Relationship)
    (text source : String) (timestamp : Option Int) : KnowledgeGraph :=
  let kg1 := extracted.1.foldl (fun g e => addContentEntity g text source timestamp e) kg
  extracted.2.foldl (fun g r => addContentRel g source timestamp r) kg1

/-- The case-insensitive scan of KnowledgeGraph.merge: the first stored key
whose lowercasing matches, if any. -/
def findCaseInsensitive (nodes : List (String × KGNode)) (nidLower : String) :
    Option String :=
  match nodes with
  | [] => none
  | (eid, _) :: rest =>
      if strLower eid = nidLower then some eid else findCaseInsensitive rest nidLower

/-- The per-node body of KnowledgeGraph.merge: extend occurrences and union
descriptions into a case-insensitive match, or append a new node under the
source key. -/
def mergeOneNode (self : KnowledgeGraph) (nid : String) (node : KGNode) :
    KnowledgeGraph :=
  let combine := fun (ex : KGNode) =>
    { ex with occurrences := ex.occurrences ++ node.occurrences,
              descriptions := setUpdate ex.descriptions node.descriptions }
  match findCaseInsensitive self.nodes (strLower nid) with
  | some eid => { self with nodes := setKey eid combine self.nodes }
  | none =>
      { self with nodes := self.nodes ++
          [(nid, { id := nid, name := node.name, type := node.type,
                   descriptions := node.descriptions,
                   occurrences := node.occurrences })] }

/-- KnowledgeGraph.merge: fold every source node into the destination, then
extend the relationship list verbatim. -/
def merge (self other : KnowledgeGraph) : KnowledgeGraph :=
  let merged := other.nodes.foldl (fun g p => mergeOneNode g p.1 p.2) self
  { merged with relationships := merged.relationships ++ other.relationships }

end KnowledgeGraph

namespace Dyn

/-- A dynamically typed property value, as storable in a node dict by
set_entity_properties: a string, a set of strings, a plain list of strings,
an occurrence list, or None. -/
inductive PValue
  | vstr (s : String)
  | vset (l : List String)
  | vlist (l : List String)
  | vocc (l : List Occurrence)
  | vnone
deriving Repr, DecidableEq

/-- A node dict with dynamically typed values. -/
abbrev DynNode := List (String × PValue)

/-- The in-process backend with dynamically typed node dicts, as needed to
model set_entity_properties overwriting reserved fields. -/
structure DynStore where
  nodes : List (String × DynNode)
  relationships : List Rel
deriving Repr, DecidableEq

/-- Python dict assignment of one key. -/
def dictSet (d : DynNode) (k : String) (v : PValue) : DynNode :=
  if (lookupKey k d).isSome then setKey k (fun _ => v) d else d ++ [(k, v)]

/-- Python dict.update with another dict. -/
def dictUpdate (d : DynNode) (props : DynNode) : DynNode :=
  props.foldl (fun acc p => dictSet acc p.1 p.2) d

/-- InMemoryStore.merge_entity over dynamically typed nodes: the existing
branch calls .update on whatever value sits under the descriptions key,
raising AttributeError (modelled as an error result) unless it is a set. -/
def mergeEntity (st : DynStore) (name entityType : String)
    (descriptions : List String) : Except String DynStore :=
  let key := strLower name
  match lookupKey key st.nodes with
  | some node =>
      if descriptions.isEmpty then .ok st
      else
        match lookupKey "descriptions" node with
        | some (.vset l) =>
            let setD := fun (d : DynNode) =>
              dictSet d "descriptions" (.vset (setUpdate l descriptions))
            .ok { st with nodes := setKey key setD st.nodes }
        | some _ => .error "AttributeError: object has no attribute update"
        | none => .error "KeyError: descriptions"
  | none =>
      .ok { st with nodes := st.nodes ++
          [(key, [("id", .vstr name), ("name", .vstr name),
                  ("type", .vstr entityType),
                  ("descriptions", .vset (setUpdate [] descriptions)),
                  ("occurrences", .vocc []), ("source", .vnone)])] }

/-- InMemoryStore.set_entity_properties: dict.update the keyed node with
arbitrary properties, returning whether the entity was found. -/
def setEntityProperties (st : DynStore) (name : String) (props : DynNode) :
    Bool × DynStore :=
  let key := strLower name
  if (lookupKey key st.nodes).isSome then
    (true, { st with nodes := setKey key (fun d => dictUpdate d props) st.nodes })
  else (false, st)

end Dyn

/-! Helper lemmas about the container primitives. -/

theorem setUpdate_cons (s : List String) (d : String) (ds : List String) :
    setUpdate s (d :: ds) = setUpdate (if d ∈ s then s else s ++ [d]) ds := rfl

theorem mem_setUpdate (ds : List String) : ∀ (s : List String) (x : String),
    x ∈ setUpdate s ds ↔ x ∈ s ∨ x ∈ ds := by
  induction ds with
  | nil => intro s x; simp [setUpdate]
  | cons d ds ih =>
      intro s x
      rw [setUpdate_cons, ih]
      by_cases hd : d ∈ s
      · simp only [if_pos hd, List.mem_cons]
        constructor
        · rintro (h | h)
          · exact Or.inl h
          · exact Or.inr (Or.inr h)
        · rintro (h | h | h)
          · exact Or.inl h
          · subst h; exact Or.inl hd
          · exact Or.inr h
      · simp only [if_neg hd, List.mem_append, List.mem_cons, List.mem_singleton]
        tauto

theorem lookupKey_cons {α : Type} (k k0 : String) (v : α) (rest : List (String × α)) :
    lookupKey k ((k0, v) :: rest) = if k0 = k then some v else lookupKey k rest := rfl

theorem lookupKey_append_left {α : Type} {k : String} {l1 l2 : List (String × α)}
    {v : α} (h : lookupKey k l1 = some v) : lookupKey k (l1 ++ l2) = some v := by
  induction l1 with
  | nil => simp [lookupKey] at h
  | cons p rest ih =>
      obtain ⟨k0, v0⟩ := p
      by_cases hk : k0 = k
      · rw [lookupKey_cons, if_pos hk] at h
        rw [List.cons_append, lookupKey_cons, if_pos hk]
        exact h
      · rw [lookupKey_cons, if_neg hk] at h
        rw [List.cons_append, lookupKey_cons, if_neg hk]
        exact ih h

theorem lookupKey_append_right {α : Type} {k : String} {l1 : List (String × α)}
    (l2 : List (String × α)) (h : lookupKey k l1 = none) :
    lookupKey k (l1 ++ l2) = lookupKey k l2 := by
  induction l1 with
  | nil => rfl
  | cons p rest ih =>
      obtain ⟨k0, v0⟩ := p
      by_cases hk : k0 = k
      · rw [lookupKey_cons, if_pos hk] at h
        exact absurd h (by simp)
      · rw [lookupKey_cons, if_neg hk] at h
        rw [List.cons_append, lookupKey_cons, if_neg hk]
        exact ih h

theorem lookupKey_none_iff {α : Type} (k : String) (l : List (String × α)) :
    lookupKey k l = none ↔ ∀ p ∈ l, p.1 ≠ k := by
  induction l with
  | nil => simp [lookupKey]
  | cons p rest ih =>
      obtain ⟨k0, v0⟩ := p
      by_cases hk : k0 = k <;> simp [lookupKey_cons, hk, ih]

theorem setKey_cons {α : Type} (k k0 : String) (f : α → α) (v : α)
    (rest : List (String × α)) :
    setKey k f ((k0, v) :: rest)
      = if k0 = k then (k0, f v) :: rest else (k0, v) :: setKey k f rest := rfl

theorem setKey_map_fst {α : Type} (k : String) (f : α → α) (l : List (String × α)) :
    (setKey k f l).map Prod.fst = l.map Prod.fst := by
  induction l with
  | nil => rfl
  | cons p rest ih =>
      obtain ⟨k0, v0⟩ := p
      by_cases hk : k0 = k <;> simp [setKey_cons, hk, ih]

theorem setKey_length {α : Type} (k : String) (f : α → α) (l : List (String × α)) :
    (setKey k f l).length = l.length := by
  have h := congrArg List.length (setKey_map_fst k f l)
  simpa using h

theorem lookupKey_setKey_self {α : Type} {k : String} {l : List (String × α)}
    {v : α} (f : α → α) (h : lookupKey k l = some v) :
    lookupKey k (setKey k f l) = some (f v) := by
  induction l with
  | nil => simp [lookupKey] at h
  | cons p rest ih =>
      obtain ⟨k0, v0⟩ := p
      by_cases hk : k0 = k
      · rw [lookupKey_cons, if_pos hk] at h
        rw [setKey_cons, if_pos hk, lookupKey_cons, if_pos hk]
        rw [Option.some_inj] at h
        rw [h]
      · rw [lookupKey_cons, if_neg hk] at h
        rw [setKey_cons, if_neg hk, lookupKey_cons, if_neg hk]
        exact ih h

theorem lookupKey_setKey_ne {α : Type} {k k0 : String} (f : α → α)
    (l : List (String × α)) (h : k0 ≠ k) :
    lookupKey k (setKey k0 f l) = lookupKey k l := by
  induction l with
  | nil => rfl
  | cons p rest ih =>
      obtain ⟨k1, v1⟩ := p
      by_cases hk : k1 = k0
      · subst hk
        rw [setKey_cons, if_pos rfl, lookupKey_cons, lookupKey_cons, if_neg h, if_neg h]
      · rw [setKey_cons, if_neg hk, lookupKey_cons, lookupKey_cons]
        by_cases hk2 : k1 = k
        · rw [if_pos hk2, if_pos hk2]
        · rw [if_neg hk2, if_neg hk2]
          exact ih

theorem setKey_append_of_none {α : Type} {k : String} {l1 : List (String × α)}
    (f : α → α) (l2 : List (String × α)) (h : lookupKey k l1 = none) :
    setKey k f (l1 ++ l2) = l1 ++ setKey k f l2 := by
  induction l1 with
  | nil => rfl
  | cons p rest ih =>
      obtain ⟨k0, v0⟩ := p
      by_cases hk : k0 = k
      · rw [lookupKey_cons, if_pos hk] at h
        exact absurd h (by simp)
      · rw [lookupKey_cons, if_neg hk] at h
        rw [List.cons_append, setKey_cons, if_neg hk, ih h, List.cons_append]

/-! Concrete objects used by several scenario claims. -/

/-- A store holding exactly entities A and B and one A to B relationship. -/
def storeAB : InMemoryStore :=
  ((InMemoryStore.empty.mergeEntity "A" "person" [] none).mergeEntity
      "B" "person" [] none).addRelationship "A" "B" "knows" none none

/-- The stored record for entity A in storeAB. -/
def nodeA : Node := ⟨"A", "A", "person", [], [], none⟩

/-- The stored record for entity B in storeAB. -/
def nodeB : Node := ⟨"B", "B", "person", [], [], none⟩

/-- The single relationship of storeAB. -/
def relAB : Rel := ⟨"A", "B", "knows", none, none⟩

/-- C7: add_relationship on the in-process backend appends exactly one
record and increments the relationship count by one, for every store state
and every argument tuple, with no existence check on the endpoints and no
change to the stored entities. -/
theorem c7_addRelationship_always_appends (st : InMemoryStore)
    (source target relType : String) (cs : Option String) (ts : Option Int) :
    (st.addRelationship source target relType cs ts).relationships
        = st.relationships ++ [⟨source, target, relType, cs, ts⟩] ∧
    (st.addRelationship source target relType cs ts).getRelationshipCount
        = st.getRelationshipCount + 1 ∧
    (st.addRelationship source target relType cs ts).nodes = st.nodes := by
  refine ⟨rfl, ?_, rfl⟩
  simp [InMemoryStore.addRelationship, InMemoryStore.getRelationshipCount]

/-- The dynamic-store state after merging entity a with one description. -/
def c10Store1 : Dyn.DynStore :=
  ⟨[("a", [("id", .vstr "a"), ("name", .vstr "a"), ("type", .vstr "concept"),
           ("descriptions", .vset ["d0"]), ("occurrences", .vocc []),
           ("source", .vnone)])], []⟩

/-- C10: set_entity_properties does not protect the reserved descriptions
field: overwriting it with a plain list makes a subsequent merge_entity
call with nonempty descriptions fail (the Python code raises
AttributeError when calling .update on a list). -/
theorem c10_set_properties_breaks_merge :
    Dyn.mergeEntity ⟨[], []⟩ "a" "concept" ["d0"] = Except.ok c10Store1 ∧
    (Dyn.setEntityProperties c10Store1 "a"
        [("descriptions", Dyn.PValue.vlist ["x"])]).1 = true ∧
    Dyn.mergeEntity
        (Dyn.setEntityProperties c10Store1 "a"
          [("descriptions", Dyn.PValue.vlist ["x"])]).2 "a" "t" ["y"]
      = Except.error "AttributeError: object has no attribute update" := by
  exact ⟨rfl, rfl, rfl⟩

/-- C5: neighbors at depth 1 from A on the two-entity store returns entity
A, entity B and the one relationship, entities first; and on any store a
missing seed yields empty data with a nonempty explanation and no error. -/
theorem c5_neighbors_basic_and_missing :
    ((GraphQueryEngine.neighbors storeAB "A" 1).data
        = GData.mixed [NRItem.ent nodeA, NRItem.ent nodeB, NRItem.rel relAB] ∧
     (GraphQueryEngine.neighbors storeAB "A" 1).explanation
        = "Found 2 entities and 1 relationships") ∧
    ∀ (st : InMemoryStore) (name : String) (depth : Nat),
      st.getEntity name = none →
        (GraphQueryEngine.neighbors st name depth).data = GData.mixed [] ∧
        (GraphQueryEngine.neighbors st name depth).explanation ≠ "" := by
  constructor
  · exact ⟨by decide, by decide⟩
  · intro st name depth h
    unfold GraphQueryEngine.neighbors
    rw [h]
    refine ⟨rfl, ?_⟩
    intro hcontra
    have hd := congrArg String.data hcontra
    simp [String.data_append] at hd

/-- Closed instance of the missing-seed part of
c5_neighbors_basic_and_missing, on the empty store. -/
theorem c5_neighbors_witness :
    InMemoryStore.empty.getEntity "missing" = none ∧
    ((GraphQueryEngine.neighbors InMemoryStore.empty "missing" 1).data
        = GData.mixed [] ∧
     (GraphQueryEngine.neighbors InMemoryStore.empty "missing" 1).explanation ≠ "") := by
  exact ⟨rfl, (c5_neighbors_basic_and_missing.2 InMemoryStore.empty "missing" 1 rfl)⟩

/-- A synthesis stage that always fails. -/
def synthBoom : QueryResult → Except String String := fun _ => Except.error "boom"

/-- C6: when the plan stage selects the stats action, the data of the ask
result equals the data of a direct stats call for every synthesis behavior,
and when the synthesis stage fails the explanation notes the failure while
the raw stats data is still returned. -/
theorem c6_ask_stats_preserves_data (st : InMemoryStore) (question : String)
    (synth : QueryResult → Except String String) :
    (GraphQueryEngine.ask st question
        (Except.ok (some .statsA)) synth).data = (GraphQueryEngine.stats st).data ∧
    ∀ e, synth (GraphQueryEngine.stats st) = Except.error e →
      (GraphQueryEngine.ask st question (Except.ok (some .statsA)) synth).explanation
          = "LLM synthesis failed (" ++ e ++ "), showing raw results" := by
  constructor
  · rcases h : synth (GraphQueryEngine.stats st) with e | a
    · simp [GraphQueryEngine.ask, h]
    · simp [GraphQueryEngine.ask, h]
  · intro e he
    simp [GraphQueryEngine.ask, he]

/-- Closed instance of c6_ask_stats_preserves_data with a failing
synthesis stage on the concrete two-entity store. -/
theorem c6_ask_stats_witness :
    (GraphQueryEngine.ask storeAB "q"
        (Except.ok (some .statsA)) synthBoom).data
      = (GraphQueryEngine.stats storeAB).data ∧
    (GraphQueryEngine.ask storeAB "q" (Except.ok (some .statsA)) synthBoom).explanation
      = "LLM synthesis failed (" ++ "boom" ++ "), showing raw results" := by
  exact ⟨(c6_ask_stats_preserves_data storeAB "q" synthBoom).1,
         (c6_ask_stats_preserves_data storeAB "q" synthBoom).2 "boom" rfl⟩

/-- C9: a merge_entity call under an existing case-insensitive name leaves
the stored id, display name, type and occurrence sequence unchanged; only
the description set grows, by exactly the supplied descriptions. -/
theorem c9_merge_existing_frame (st : InMemoryStore) (name name2 t : String)
    (ds : List String) (src : Option String) (n : Node)
    (hcase : strLower name2 = strLower name)
    (h : st.getEntity name = some n) :
    ∃ n2, (st.mergeEntity name2 t ds src).getEntity name = some n2 ∧
      n2.id = n.id ∧ n2.name = n.name ∧ n2.type = n.type ∧
      n2.occurrences = n.occurrences ∧
      (∀ x, x ∈ n2.descriptions ↔ x ∈ n.descriptions ∨ x ∈ ds) := by
  have h0 : lookupKey (strLower name) st.nodes = some n := h
  simp only [InMemoryStore.mergeEntity, InMemoryStore.getEntity, hcase, h0]
  by_cases hds : ds.isEmpty
  · rw [if_pos hds]
    refine ⟨n, h0, rfl, rfl, rfl, rfl, ?_⟩
    intro x
    have : ds = [] := by simpa using hds
    simp [this]
  · rw [if_neg hds]
    refine ⟨_, lookupKey_setKey_self _ h0, rfl, rfl, rfl, rfl, ?_⟩
    intro x
    exact mem_setUpdate ds n.descriptions x

/-- Closed instance of c9_merge_existing_frame: remerging entity A of
storeAB under lowercase spelling with a new type and description. -/
theorem c9_merge_existing_witness :
    (strLower "a" = strLower "A" ∧ storeAB.getEntity "A" = some nodeA) ∧
    (∃ n2, (storeAB.mergeEntity "a" "x" ["d"] none).getEntity "A" = some n2 ∧
      n2.id = nodeA.id ∧ n2.name = nodeA.name ∧ n2.type = nodeA.type ∧
      n2.occurrences = nodeA.occurrences ∧
      (∀ x, x ∈ n2.descriptions ↔ x ∈ nodeA.descriptions ∨ x ∈ ["d"])) := by
  exact ⟨⟨by decide, by decide⟩,
    c9_merge_existing_frame storeAB "A" "a" "x" ["d"] none nodeA (by decide) (by decide)⟩

/-- The argument tuple of one merge_entity call. -/
structure MergeCall where
  name : String
  entityType : String
  descriptions : List String
  source : Option String
deriving Repr, DecidableEq

/-- Fold a sequence of merge_entity calls over a store. -/
def runMerges (calls : List MergeCall) (st : InMemoryStore) : InMemoryStore :=
  calls.foldl (fun s c => s.mergeEntity c.name c.entityType c.descriptions c.source) st

theorem runMerges_cons (c : MergeCall) (cs : List MergeCall) (st : InMemoryStore) :
    runMerges (c :: cs) st
      = runMerges cs (st.mergeEntity c.name c.entityType c.descriptions c.source) := rfl

/-- Folding merge calls that all share the one stored key leaves a single
node whose description set accumulates the union of the supplied lists and
whose other fields never change. -/
theorem runMerges_single (calls : List MergeCall) (k : String) :
    ∀ (n : Node) (rels : List Rel),
    (∀ c ∈ calls, strLower c.name = k) →
    ∃ n2, runMerges calls ⟨[(k, n)], rels⟩ = ⟨[(k, n2)], rels⟩ ∧
      n2.id = n.id ∧ n2.name = n.name ∧ n2.type = n.type ∧
      n2.occurrences = n.occurrences ∧
      (∀ x, x ∈ n2.descriptions ↔ x ∈ n.descriptions ∨ ∃ c ∈ calls, x ∈ c.descriptions) := by
  induction calls with
  | nil =>
      intro n rels _
      exact ⟨n, rfl, rfl, rfl, rfl, rfl, by simp⟩
  | cons c cs ih =>
      intro n rels hall
      have hc : strLower c.name = k := hall c (List.mem_cons_self c cs)
      have hlook : lookupKey k [(k, n)] = some n := by
        rw [lookupKey_cons, if_pos rfl]
      have hstep : (InMemoryStore.mk [(k, n)] rels).mergeEntity
          c.name c.entityType c.descriptions c.source
          = ⟨[(k, if c.descriptions.isEmpty then n
                 else { n with descriptions := setUpdate n.descriptions c.descriptions })], rels⟩ := by
        simp only [InMemoryStore.mergeEntity, hc, hlook]
        by_cases hds : c.descriptions.isEmpty
        · rw [if_pos hds, if_pos hds]
        · rw [if_neg hds, if_neg hds]
          rw [setKey_cons, if_pos rfl]
      rw [runMerges_cons, hstep]
      obtain ⟨n2, heq, hid, hname, htype, hocc, hdesc⟩ :=
        ih (if c.descriptions.isEmpty then n
            else { n with descriptions := setUpdate n.descriptions c.descriptions }) rels
           (fun c2 h2 => hall c2 (List.mem_cons_of_mem c h2))
      refine ⟨n2, heq, ?_, ?_, ?_, ?_, ?_⟩
      · by_cases hds : c.descriptions.isEmpty <;> simp [hds] at hid ⊢ <;> exact hid
      · by_cases hds : c.descriptions.isEmpty <;> simp [hds] at hname ⊢ <;> exact hname
      · by_cases hds : c.descriptions.isEmpty <;> simp [hds] at htype ⊢ <;> exact htype
      · by_cases hds : c.descriptions.isEmpty <;> simp [hds] at hocc ⊢ <;> exact hocc
      · intro x
        rw [hdesc x]
        by_cases hds : c.descriptions.isEmpty
        · have hnil : c.descriptions = [] := by simpa using hds
          simp [hds, hnil, List.mem_cons]
        · simp only [if_neg hds, mem_setUpdate, List.mem_cons]
          constructor
          · rintro ((h | h) | ⟨c2, h2, h3⟩)
            · exact Or.inl h
            · exact Or.inr ⟨c, Or.inl rfl, h⟩
            · exact Or.inr ⟨c2, Or.inr h2, h3⟩
          · rintro (h | ⟨c2, (rfl | h2), h3⟩)
            · exact Or.inl (Or.inl h)
            · exact Or.inl (Or.inr h3)
            · exact Or.inr ⟨c2, h2, h3⟩

/-- C1: any nonempty sequence of merge_entity calls whose names agree up to
letter case, run on a fresh in-process store, leaves exactly one entity,
and its description set is the union of all supplied description lists. -/
theorem c1_case_insensitive_merge_union (calls : List MergeCall) (hne : calls ≠ [])
    (hsame : ∀ c ∈ calls, ∀ c2 ∈ calls, strLower c.name = strLower c2.name) :
    (runMerges calls InMemoryStore.empty).getEntityCount = 1 ∧
    ∃ n, (runMerges calls InMemoryStore.empty).getAllEntities = [n] ∧
      (∀ x, x ∈ n.descriptions ↔ ∃ c ∈ calls, x ∈ c.descriptions) := by
  cases calls with
  | nil => exact absurd rfl hne
  | cons c cs =>
      have hfirst : InMemoryStore.empty.mergeEntity
          c.name c.entityType c.descriptions c.source
          = ⟨[(strLower c.name,
               ⟨c.name, c.name, c.entityType, setUpdate [] c.descriptions, [], c.source⟩)], []⟩ := by
        simp [InMemoryStore.mergeEntity, InMemoryStore.empty, lookupKey]
      have hall : ∀ c2 ∈ cs, strLower c2.name = strLower c.name :=
        fun c2 h2 => hsame c2 (List.mem_cons_of_mem c h2) c (List.mem_cons_self c cs)
      obtain ⟨n2, heq, hid, hname, htype, hocc, hdesc⟩ :=
        runMerges_single cs (strLower c.name)
          ⟨c.name, c.name, c.entityType, setUpdate [] c.descriptions, [], c.source⟩ [] hall
      rw [runMerges_cons, hfirst, heq]
      refine ⟨rfl, n2, rfl, ?_⟩
      intro x
      rw [hdesc x]
      simp only [mem_setUpdate, List.mem_cons, List.not_mem_nil, false_or]
      constructor
      · rintro (h | ⟨c2, h2, h3⟩)
        · exact ⟨c, Or.inl rfl, h⟩
        · exact ⟨c2, Or.inr h2, h3⟩
      · rintro ⟨c2, (rfl | h2), h3⟩
        · exact Or.inl h3
        · exact Or.inr ⟨c2, h2, h3⟩

/-- Two merge calls whose names differ only by case. -/
def c1calls : List MergeCall :=
  [⟨"Python", "technology", ["a lang"], none⟩, ⟨"PYTHON", "tool", ["fast"], none⟩]

/-- Closed instance of c1_case_insensitive_merge_union on two calls whose
names differ only by case. -/
theorem c1_case_insensitive_witness :
    (c1calls ≠ [] ∧ ∀ c ∈ c1calls, ∀ c2 ∈ c1calls, strLower c.name = strLower c2.name) ∧
    ((runMerges c1calls InMemoryStore.empty).getEntityCount = 1 ∧
     ∃ n, (runMerges c1calls InMemoryStore.empty).getAllEntities = [n] ∧
       (∀ x, x ∈ n.descriptions ↔ ∃ c ∈ c1calls, x ∈ c.descriptions)) := by
  exact ⟨⟨by decide, by decide⟩,
    c1_case_insensitive_merge_union c1calls (by decide) (by decide)⟩

/-- The accumulation loop of entities never exceeds max limit 1 records
when started below that bound (the length test runs only after an append,
so a zero limit still lets one record through). -/
theorem filterLimit_length_le (p : Node → Bool) (limit : Nat) :
    ∀ (l acc : List Node), acc.length < max limit 1 →
      (GraphQueryEngine.filterLimit p limit l acc).length ≤ max limit 1 := by
  intro l
  induction l with
  | nil =>
      intro acc h
      simpa [GraphQueryEngine.filterLimit] using Nat.le_of_lt h
  | cons e rest ih =>
      intro acc h
      simp only [GraphQueryEngine.filterLimit]
      by_cases hp : p e
      · rw [if_pos hp]
        by_cases hl : limit ≤ (acc ++ [e]).length
        · rw [if_pos hl]
          simp only [List.length_append, List.length_singleton]
          omega
        · rw [if_neg hl]
          apply ih
          simp only [List.length_append, List.length_singleton] at hl ⊢
          omega
      · rw [if_neg hp]
        exact ih acc h

/-- Every record produced by the entities loop passed the filter (or was
already in the accumulator). -/
theorem filterLimit_mem (p : Node → Bool) (limit : Nat) :
    ∀ (l acc : List Node) (e : Node),
      e ∈ GraphQueryEngine.filterLimit p limit l acc →
      e ∈ acc ∨ p e = true := by
  intro l
  induction l with
  | nil =>
      intro acc e he
      exact Or.inl he
  | cons a rest ih =>
      intro acc e he
      simp only [GraphQueryEngine.filterLimit] at he
      by_cases hp : p a
      · rw [if_pos hp] at he
        by_cases hl : limit ≤ (acc ++ [a]).length
        · rw [if_pos hl] at he
          rcases List.mem_append.mp he with h | h
          · exact Or.inl h
          · rcases List.mem_singleton.mp h with rfl
            exact Or.inr hp
        · rw [if_neg hl] at he
          rcases ih (acc ++ [a]) e he with h | h
          · rcases List.mem_append.mp h with h2 | h2
            · exact Or.inl h2
            · rcases List.mem_singleton.mp h2 with rfl
              exact Or.inr hp
          · exact Or.inr h
      · rw [if_neg hp] at he
        exact ih acc e he

/-- C8 amended: every record returned by entities matches a supplied
nonempty name filter as a case-insensitive substring and a supplied
nonempty type filter by case-insensitive equality (empty-string filters are
falsy in the source and disable the check), and the number of returned
records is at most max limit 1 rather than limit: with limit zero the loop
still returns the first matching record, because the cap is tested only
after an append. -/
theorem c8_entities_filters_and_cap (st : InMemoryStore) (nf tf : Option String)
    (limit : Nat) (e : Node)
    (he : e ∈ GraphQueryEngine.entitiesResults st nf tf limit) :
    (GraphQueryEngine.entities st nf tf limit).data
        = GData.entList (GraphQueryEngine.entitiesResults st nf tf limit) ∧
    (GraphQueryEngine.entitiesResults st nf tf limit).length ≤ max limit 1 ∧
    (∀ s, nf = some s → s ≠ "" → strContains (strLower e.name) (strLower s) = true) ∧
    (∀ s, tf = some s → s ≠ "" → strLower s = strLower e.type) := by
  have hpass : GraphQueryEngine.passesFilters nf tf e = true := by
    rcases filterLimit_mem _ _ _ _ _ he with h | h
    · simp at h
    · exact h
  rw [GraphQueryEngine.passesFilters.eq_def, Bool.and_eq_true] at hpass
  obtain ⟨hname, htype⟩ := hpass
  refine ⟨rfl, ?_, ?_, ?_⟩
  · exact filterLimit_length_le _ _ _ []
      (by simp [Nat.lt_of_lt_of_le Nat.zero_lt_one (Nat.le_max_right limit 1)])
  · intro s hs hne
    subst hs
    simp only [Bool.or_eq_true, beq_iff_eq] at hname
    rcases hname with h | h
    · exact absurd h hne
    · exact h
  · intro s hs hne
    subst hs
    simp only [Bool.or_eq_true, beq_iff_eq] at htype
    rcases htype with h | h
    · exact absurd h hne
    · exact h

/-- A store holding the single entity Python. -/
def storeOne : InMemoryStore :=
  InMemoryStore.empty.mergeEntity "Python" "technology" [] none

/-- The stored record for Python in storeOne. -/
def pyNode : Node := ⟨"Python", "Python", "technology", [], [], none⟩

/-- C8 counterexample: with limit zero on a one-entity store, entities
returns one record, so the returned record count is not at most the limit. -/
theorem c8_limit_zero_counterexample :
    (GraphQueryEngine.entities storeOne none none 0).data = GData.entList [pyNode] ∧
    (GraphQueryEngine.entitiesResults storeOne none none 0).length = 1 ∧
    ¬ ((GraphQueryEngine.entitiesResults storeOne none none 0).length ≤ 0) := by
  exact ⟨by decide, by decide, by decide⟩

/-- Closed instance of c8_entities_filters_and_cap: combined name and type
filters on the one-entity store. -/
theorem c8_entities_filters_witness :
    (pyNode ∈ GraphQueryEngine.entitiesResults storeOne (some "py") (some "TECHNOLOGY") 50) ∧
    ((GraphQueryEngine.entities storeOne (some "py") (some "TECHNOLOGY") 50).data
        = GData.entList (GraphQueryEngine.entitiesResults storeOne
            (some "py") (some "TECHNOLOGY") 50) ∧
     (GraphQueryEngine.entitiesResults storeOne
         (some "py") (some "TECHNOLOGY") 50).length ≤ max 50 1 ∧
     (∀ s, (some "py" : Option String) = some s → s ≠ "" →
        strContains (strLower pyNode.name) (strLower s) = true) ∧
     (∀ s, (some "TECHNOLOGY" : Option String) = some s → s ≠ "" →
        strLower s = strLower pyNode.type)) := by
  exact ⟨by decide, c8_entities_filters_and_cap storeOne
    (some "py") (some "TECHNOLOGY") 50 pyNode (by decide)⟩

/-- A freshly constructed KnowledgeGraph. -/
def kgEmpty : KnowledgeGraph := ⟨[], []⟩

/-- C2 counterexample: two add_content calls whose extracted entities share
a case-insensitive name but differ in casing create two stored nodes, not
one: add_content keys the node dict by the exact name string. -/
theorem c2_case_sensitivity_counterexample :
    ((kgEmpty.addContent ([⟨"Python", "technology", ["L1"]⟩], []) "t1" "s1" none).addContent
        ([⟨"python", "technology", ["L2"]⟩], []) "t2" "s2" none).nodes.length = 2 ∧
    ¬ (((kgEmpty.addContent ([⟨"Python", "technology", ["L1"]⟩], []) "t1" "s1" none).addContent
        ([⟨"python", "technology", ["L2"]⟩], []) "t2" "s2" none).nodes.length = 1) := by
  exact ⟨by decide, by decide⟩

/-- C2 amended: two add_content calls each creating an entity with the same
exact name string resolve to one stored node whose description set is the
union of both description lists and whose occurrence sequence is the
concatenation in call order; case-insensitive resolution holds only for the
backend stores and for graph merge, not for add_content. -/
theorem c2_same_name_single_node (kg : KnowledgeGraph) (n t1 t2 : String)
    (d1 d2 : List String) (text1 text2 s1 s2 : String) (ts1 ts2 : Option Int)
    (h : lookupKey n kg.nodes = none) :
    ∃ node,
      lookupKey n ((kg.addContent ([⟨n, t1, d1⟩], []) text1 s1 ts1).addContent
          ([⟨n, t2, d2⟩], []) text2 s2 ts2).nodes = some node ∧
      ((kg.addContent ([⟨n, t1, d1⟩], []) text1 s1 ts1).addContent
          ([⟨n, t2, d2⟩], []) text2 s2 ts2).nodes.length = kg.nodes.length + 1 ∧
      (∀ x, x ∈ node.descriptions ↔ x ∈ d1 ∨ x ∈ d2) ∧
      node.occurrences = [⟨s1, ts1, some (truncateText text1)⟩,
                          ⟨s2, ts2, some (truncateText text2)⟩] := by
  have h1 : kg.addContent ([⟨n, t1, d1⟩], []) text1 s1 ts1
      = { kg with nodes := kg.nodes ++
          [(n, ⟨n, n, t1, setUpdate [] d1, [⟨s1, ts1, some (truncateText text1)⟩]⟩)] } := by
    show KnowledgeGraph.addContentEntity kg text1 s1 ts1 ⟨n, t1, d1⟩ = _
    simp only [KnowledgeGraph.addContentEntity, h]
  rw [h1]
  set node1 : KGNode :=
    ⟨n, n, t1, setUpdate [] d1, [⟨s1, ts1, some (truncateText text1)⟩]⟩ with hnode1
  have hlook1 : lookupKey n (kg.nodes ++ [(n, node1)]) = some node1 := by
    rw [lookupKey_append_right _ h, lookupKey_cons, if_pos rfl]
  have h2 : (KnowledgeGraph.mk (kg.nodes ++ [(n, node1)]) kg.relationships).addContent
      ([⟨n, t2, d2⟩], []) text2 s2 ts2
      = { nodes := kg.nodes ++
          [(n, ⟨n, n, t1,
                (if d2.isEmpty then setUpdate [] d1 else setUpdate (setUpdate [] d1) d2),
                [⟨s1, ts1, some (truncateText text1)⟩,
                 ⟨s2, ts2, some (truncateText text2)⟩]⟩)],
          relationships := kg.relationships } := by
    show KnowledgeGraph.addContentEntity ⟨kg.nodes ++ [(n, node1)], kg.relationships⟩
        text2 s2 ts2 ⟨n, t2, d2⟩ = _
    simp only [KnowledgeGraph.addContentEntity, hlook1]
    by_cases hd2 : d2.isEmpty
    · rw [if_pos hd2, if_pos hd2]
      rw [setKey_append_of_none _ _ h, setKey_cons, if_pos rfl]
      simp [hnode1]
    · rw [if_neg hd2, if_neg hd2]
      rw [setKey_append_of_none _ _ h, setKey_cons, if_pos rfl]
      have hinner : lookupKey n kg.nodes = none := h
      rw [setKey_append_of_none _ _ hinner, setKey_cons, if_pos rfl]
      simp [hnode1]
  rw [h2]
  refine ⟨_, by rw [lookupKey_append_right _ h, lookupKey_cons, if_pos rfl], by simp, ?_, rfl⟩
  intro x
  by_cases hd2 : d2.isEmpty
  · have hnil : d2 = [] := by simpa using hd2
    simp [hd2, hnil, mem_setUpdate]
  · simp [hd2, mem_setUpdate]

/-- Closed instance of c2_same_name_single_node: two same-name creations
starting from the empty integration-layer graph. -/
theorem c2_same_name_witness :
    lookupKey "Python" kgEmpty.nodes = none ∧
    (∃ node,
      lookupKey "Python" ((kgEmpty.addContent ([⟨"Python", "a", ["d1"]⟩], [])
            "tx1" "s1" none).addContent
          ([⟨"Python", "b", ["d2"]⟩], []) "tx2" "s2" none).nodes = some node ∧
      ((kgEmpty.addContent ([⟨"Python", "a", ["d1"]⟩], []) "tx1" "s1" none).addContent
          ([⟨"Python", "b", ["d2"]⟩], []) "tx2" "s2" none).nodes.length
        = kgEmpty.nodes.length + 1 ∧
      (∀ x, x ∈ node.descriptions ↔ x ∈ ["d1"] ∨ x ∈ ["d2"]) ∧
      node.occurrences = [⟨"s1", none, some (truncateText "tx1")⟩,
                          ⟨"s2", none, some (truncateText "tx2")⟩]) := by
  exact ⟨rfl, c2_same_name_single_node kgEmpty "Python" "a" "b" ["d1"] ["d2"]
    "tx1" "tx2" "s1" "s2" none none rfl⟩

/-- The node-merging fold inside KnowledgeGraph.merge. -/
def kgFoldNodes (self : KnowledgeGraph) (other : List (String × KGNode)) : KnowledgeGraph :=
  other.foldl (fun g p => KnowledgeGraph.mergeOneNode g p.1 p.2) self

theorem merge_nodes_eq (self other : KnowledgeGraph) :
    (self.merge other).nodes = (kgFoldNodes self other.nodes).nodes := rfl

theorem merge_rels_eq (self other : KnowledgeGraph) :
    (self.merge other).relationships
      = (kgFoldNodes self other.nodes).relationships ++ other.relationships := rfl

theorem mergeOneNode_rels (g : KnowledgeGraph) (nid : String) (node : KGNode) :
    (g.mergeOneNode nid node).relationships = g.relationships := by
  unfold KnowledgeGraph.mergeOneNode
  cases KnowledgeGraph.findCaseInsensitive g.nodes (strLower nid) <;> rfl

theorem kgFoldNodes_rels (other : List (String × KGNode)) :
    ∀ self : KnowledgeGraph, (kgFoldNodes self other).relationships = self.relationships := by
  induction other with
  | nil => intro self; rfl
  | cons p rest ih =>
      intro self
      show (kgFoldNodes (self.mergeOneNode p.1 p.2) rest).relationships = _
      rw [ih, mergeOneNode_rels]

theorem findCI_eq_none_iff (nodes : List (String × KGNode)) (nl : String) :
    KnowledgeGraph.findCaseInsensitive nodes nl = none ↔
      ∀ p ∈ nodes, strLower p.1 ≠ nl := by
  induction nodes with
  | nil => simp [KnowledgeGraph.findCaseInsensitive]
  | cons p rest ih =>
      obtain ⟨eid, v⟩ := p
      by_cases hk : strLower eid = nl <;>
        simp [KnowledgeGraph.findCaseInsensitive, hk, ih]

theorem findCI_some {nodes : List (String × KGNode)} {nl eid : String}
    (h : KnowledgeGraph.findCaseInsensitive nodes nl = some eid) :
    eid ∈ nodes.map Prod.fst ∧ strLower eid = nl := by
  induction nodes with
  | nil => simp [KnowledgeGraph.findCaseInsensitive] at h
  | cons q rest ih =>
      obtain ⟨k0, v0⟩ := q
      by_cases hk : strLower k0 = nl
      · rw [KnowledgeGraph.findCaseInsensitive, if_pos hk, Option.some_inj] at h
        subst h
        exact ⟨by simp, hk⟩
      · rw [KnowledgeGraph.findCaseInsensitive, if_neg hk] at h
        obtain ⟨h1, h2⟩ := ih h
        exact ⟨by simp [h1], h2⟩

/-- Some stored key of the graph matches nid case-insensitively. -/
def hasMatchKey (g : KnowledgeGraph) (nid : String) : Prop :=
  ∃ k ∈ g.nodes.map Prod.fst, strLower k = strLower nid

theorem mergeOneNode_fst (g : KnowledgeGraph) (nid : String) (node : KGNode) :
    (g.mergeOneNode nid node).nodes.map Prod.fst = g.nodes.map Prod.fst ∨
    (g.mergeOneNode nid node).nodes.map Prod.fst = g.nodes.map Prod.fst ++ [nid] := by
  unfold KnowledgeGraph.mergeOneNode
  cases h : KnowledgeGraph.findCaseInsensitive g.nodes (strLower nid) with
  | some eid => exact Or.inl (setKey_map_fst eid _ g.nodes)
  | none => exact Or.inr (by simp)

theorem mergeOneNode_hasMatch_self (g : KnowledgeGraph) (nid : String) (node : KGNode) :
    hasMatchKey (g.mergeOneNode nid node) nid := by
  unfold hasMatchKey KnowledgeGraph.mergeOneNode
  cases h : KnowledgeGraph.findCaseInsensitive g.nodes (strLower nid) with
  | some eid =>
      obtain ⟨h1, h2⟩ := findCI_some h
      exact ⟨eid, by simpa [setKey_map_fst] using h1, h2⟩
  | none => exact ⟨nid, by simp, rfl⟩

theorem mergeOneNode_hasMatch_mono (g : KnowledgeGraph) (nid m : String) (node : KGNode)
    (h : hasMatchKey g m) : hasMatchKey (g.mergeOneNode nid node) m := by
  obtain ⟨k, hk, hk2⟩ := h
  rcases mergeOneNode_fst g nid node with heq | heq
  · exact ⟨k, heq ▸ hk, hk2⟩
  · exact ⟨k, by rw [heq]; exact List.mem_append_left _ hk, hk2⟩

theorem kgFoldNodes_hasMatch_mono (other : List (String × KGNode)) :
    ∀ (self : KnowledgeGraph) (m : String), hasMatchKey self m →
      hasMatchKey (kgFoldNodes self other) m := by
  induction other with
  | nil => intro self m h; exact h
  | cons p rest ih =>
      intro self m h
      exact ih _ m (mergeOneNode_hasMatch_mono self p.1 m p.2 h)

/-- After merging a node list into a graph, every merged key has a
case-insensitive match among the stored keys. -/
theorem kgFoldNodes_all_match (other : List (String × KGNode)) :
    ∀ self : KnowledgeGraph, ∀ p ∈ other, hasMatchKey (kgFoldNodes self other) p.1 := by
  induction other with
  | nil => intro self p hp; simp at hp
  | cons q rest ih =>
      intro self p hp
      rcases List.mem_cons.mp hp with rfl | hp2
      · exact kgFoldNodes_hasMatch_mono rest _ p.1
          (mergeOneNode_hasMatch_self self p.1 p.2)
      · exact ih _ p hp2

theorem mergeOneNode_found_len (g : KnowledgeGraph) (nid : String) (node : KGNode)
    (h : hasMatchKey g nid) :
    (g.mergeOneNode nid node).nodes.map Prod.fst = g.nodes.map Prod.fst := by
  unfold KnowledgeGraph.mergeOneNode
  cases hf : KnowledgeGraph.findCaseInsensitive g.nodes (strLower nid) with
  | some eid => exact setKey_map_fst eid _ g.nodes
  | none =>
      obtain ⟨k, hk, hk2⟩ := h
      rw [findCI_eq_none_iff] at hf
      obtain ⟨p, hp, rfl⟩ := List.mem_map.mp hk
      exact absurd hk2 (hf p hp)

/-- Merging a node list whose every key already matches case-insensitively
never changes the number of stored nodes. -/
theorem kgFoldNodes_len_of_match (other : List (String × KGNode)) :
    ∀ self : KnowledgeGraph, (∀ p ∈ other, hasMatchKey self p.1) →
      (kgFoldNodes self other).nodes.length = self.nodes.length := by
  induction other with
  | nil => intro self _; rfl
  | cons q rest ih =>
      intro self hall
      have hq : hasMatchKey self q.1 := hall q (List.mem_cons_self q rest)
      have hfst := mergeOneNode_found_len self q.1 q.2 hq
      have hrest : ∀ p ∈ rest, hasMatchKey (self.mergeOneNode q.1 q.2) p.1 := by
        intro p hp
        obtain ⟨k, hk, hk2⟩ := hall p (List.mem_cons_of_mem q hp)
        exact ⟨k, hfst ▸ hk, hk2⟩
      show (kgFoldNodes (self.mergeOneNode q.1 q.2) rest).nodes.length = _
      rw [ih _ hrest]
      have := congrArg List.length hfst
      simpa using this

/-- C4: merging graph B into graph A twice leaves the entity count equal to
the count after one merge (entity identity resolves case-insensitively, so
no entity is created twice), while the relationship count grows again by
exactly the number of relationships of B. -/
theorem c4_merge_twice_idempotent_entities (A B : KnowledgeGraph) :
    ((A.merge B).merge B).nodes.length = (A.merge B).nodes.length ∧
    ((A.merge B).merge B).relationships.length
      = (A.merge B).relationships.length + B.relationships.length := by
  constructor
  · rw [merge_nodes_eq (A.merge B) B]
    apply kgFoldNodes_len_of_match
    intro p hp
    have := kgFoldNodes_all_match B.nodes A p hp
    show hasMatchKey (A.merge B) p.1
    unfold hasMatchKey
    rw [merge_nodes_eq A B]
    exact this
  · rw [merge_rels_eq (A.merge B) B, kgFoldNodes_rels]
    simp

theorem lookupKey_some_mem {α : Type} {k : String} {l : List (String × α)} {v : α}
    (h : lookupKey k l = some v) : (k, v) ∈ l := by
  induction l with
  | nil => simp [lookupKey] at h
  | cons p rest ih =>
      obtain ⟨k0, v0⟩ := p
      by_cases hk : k0 = k
      · rw [lookupKey_cons, if_pos hk, Option.some_inj] at h
        subst hk
        subst h
        exact List.mem_cons_self _ _
      · rw [lookupKey_cons, if_neg hk] at h
        exact List.mem_cons_of_mem _ (ih h)

/-- The node-dict shape produced by to_dict for one stored entity. -/
def snapOf (p : String × Node) : SnapNode :=
  ⟨p.2.id, p.2.name, p.2.type, p.2.descriptions, p.2.occurrences⟩

theorem toDict_eq (st : InMemoryStore) :
    st.toDict = ⟨st.nodes.map snapOf, st.relationships⟩ := rfl

/-- The entity record produced by replaying one snapshot node into a fresh store. -/
def rebuiltNode (n : Node) : Node :=
  ⟨n.name, n.name, n.type, setUpdate [] n.descriptions, n.occurrences, none⟩

theorem occFold_eq (occs : List Occurrence) :
    ∀ (pre : List (String × Node)) (rels : List Rel) (ename : String) (node : Node),
    lookupKey (strLower ename) pre = none →
    occs.foldl
        (fun (s : InMemoryStore) (occ : Occurrence) =>
          s.addOccurrence ename occ.source occ.timestamp occ.text)
        (InMemoryStore.mk (pre ++ [(strLower ename, node)]) rels)
      = InMemoryStore.mk
          (pre ++ [(strLower ename, { node with occurrences := node.occurrences ++ occs })])
          rels := by
  induction occs with
  | nil =>
      intro pre rels ename node hpre
      simp
  | cons occ rest ih =>
      intro pre rels ename node hpre
      have hlk : lookupKey (strLower ename) (pre ++ [(strLower ename, node)]) = some node := by
        rw [lookupKey_append_right _ hpre, lookupKey_cons, if_pos rfl]
      have hstep : (InMemoryStore.mk (pre ++ [(strLower ename, node)]) rels).addOccurrence
          ename occ.source occ.timestamp occ.text
          = ⟨pre ++ [(strLower ename,
              { node with occurrences := node.occurrences ++ [occ] })], rels⟩ := by
        simp only [InMemoryStore.addOccurrence, hlk]
        rw [setKey_append_of_none _ _ hpre, setKey_cons, if_pos rfl]
      rw [List.foldl_cons, hstep, ih pre rels ename _ hpre]
      simp

theorem rebuildNode_eq (acc : InMemoryStore) (p : String × Node)
    (hkey : p.1 = strLower p.2.name) (hnew : lookupKey p.1 acc.nodes = none) :
    rebuildNode acc (snapOf p)
      = ⟨acc.nodes ++ [(p.1, rebuiltNode p.2)], acc.relationships⟩ := by
  obtain ⟨k, n⟩ := p
  simp only at hkey hnew
  subst hkey
  have hm : acc.mergeEntity n.name n.type n.descriptions none
      = ⟨acc.nodes ++ [(strLower n.name,
          ⟨n.name, n.name, n.type, setUpdate [] n.descriptions, [], none⟩)],
         acc.relationships⟩ := by
    simp only [InMemoryStore.mergeEntity, hnew]
  show n.occurrences.foldl
      (fun s occ => s.addOccurrence n.name occ.source occ.timestamp occ.text)
      (acc.mergeEntity n.name n.type n.descriptions none) = _
  rw [hm, occFold_eq n.occurrences acc.nodes acc.relationships n.name _ hnew]
  rfl

theorem nodesFold_eq (l : List (String × Node)) :
    ∀ acc : InMemoryStore,
    (∀ p ∈ l, p.1 = strLower p.2.name) →
    (acc.nodes.map Prod.fst ++ l.map Prod.fst).Nodup →
    ((l.map snapOf).foldl rebuildNode acc).nodes.map Prod.fst
        = acc.nodes.map Prod.fst ++ l.map Prod.fst ∧
    ((l.map snapOf).foldl rebuildNode acc).relationships = acc.relationships ∧
    (∀ k v, lookupKey k acc.nodes = some v →
        lookupKey k ((l.map snapOf).foldl rebuildNode acc).nodes = some v) ∧
    (∀ p ∈ l, lookupKey p.1 ((l.map snapOf).foldl rebuildNode acc).nodes
        = some (rebuiltNode p.2)) := by
  induction l with
  | nil =>
      intro acc _ _
      exact ⟨by simp, rfl, fun k v h => h, by simp⟩
  | cons p rest ih =>
      intro acc hkeys hnodup
      have hp1 : p.1 = strLower p.2.name := hkeys p (List.mem_cons_self _ _)
      have hnew : lookupKey p.1 acc.nodes = none := by
        rw [lookupKey_none_iff]
        intro q hq hcontra
        have hdisj := (List.nodup_append.mp hnodup).2.2
        exact hdisj (List.mem_map.mpr ⟨q, hq, hcontra⟩) (List.mem_cons_self _ _)
      have hstep := rebuildNode_eq acc p hp1 hnew
      rw [List.map_cons, List.foldl_cons, hstep]
      have hnodup2 :
          ((InMemoryStore.mk (acc.nodes ++ [(p.1, rebuiltNode p.2)])
              acc.relationships).nodes.map Prod.fst ++ rest.map Prod.fst).Nodup := by
        simp only [List.map_append, List.map_cons, List.map_nil, List.append_assoc,
                   List.singleton_append]
        simpa [List.map_cons] using hnodup
      obtain ⟨hfst, hrels, hold, hnodes⟩ :=
        ih ⟨acc.nodes ++ [(p.1, rebuiltNode p.2)], acc.relationships⟩
          (fun q hq => hkeys q (List.mem_cons_of_mem _ hq)) hnodup2
      refine ⟨?_, hrels, ?_, ?_⟩
      · rw [hfst]
        simp
      · intro k v h
        exact hold k v (lookupKey_append_left h)
      · intro q hq
        rcases List.mem_cons.mp hq with rfl | hq2
        · apply hold
          rw [lookupKey_append_right _ hnew, lookupKey_cons, if_pos rfl]
        · exact hnodes q hq2

theorem relFold_eq (rs : List Rel) :
    ∀ s : InMemoryStore,
    rs.foldl (fun s r => s.addRelationship r.source r.target r.type r.content_source r.timestamp) s
      = ⟨s.nodes, s.relationships ++ rs⟩ := by
  induction rs with
  | nil => intro s; simp
  | cons r rest ih =>
      intro s
      rw [List.foldl_cons, ih]
      simp [InMemoryStore.addRelationship]

/-- A well-formed in-process store: every node sits under its lowercased
name and keys are unique, as holds for every store reached through the
contract operations. -/
def WFStore (st : InMemoryStore) : Prop :=
  (∀ p ∈ st.nodes, p.1 = strLower p.2.name) ∧ (st.nodes.map Prod.fst).Nodup

/-- C3: exporting an in-process store with to_dict and reconstructing a
store from that snapshot (merge each node, append each occurrence, append
each relationship, as from_json_path does) preserves the entity count, the
relationship count, and for each stored entity its type, display name and
description set. -/
theorem c3_roundtrip_preserves (st : InMemoryStore) (hwf : WFStore st) :
    (rebuildStore st.toDict).getEntityCount = st.getEntityCount ∧
    (rebuildStore st.toDict).getRelationshipCount = st.getRelationshipCount ∧
    ∀ k n, lookupKey k st.nodes = some n →
      ∃ n2, lookupKey k (rebuildStore st.toDict).nodes = some n2 ∧
        n2.type = n.type ∧ n2.name = n.name ∧
        (∀ x, x ∈ n2.descriptions ↔ x ∈ n.descriptions) := by
  obtain ⟨hkeys, hnodup⟩ := hwf
  obtain ⟨hfst, hrels, hold, hnodes⟩ :=
    nodesFold_eq st.nodes InMemoryStore.empty hkeys (by simpa using hnodup)
  have hre : rebuildStore st.toDict
      = ⟨((st.nodes.map snapOf).foldl rebuildNode InMemoryStore.empty).nodes,
         ((st.nodes.map snapOf).foldl rebuildNode InMemoryStore.empty).relationships
           ++ st.relationships⟩ := by
    show st.relationships.foldl
        (fun s r => s.addRelationship r.source r.target r.type r.content_source r.timestamp)
        ((st.nodes.map snapOf).foldl rebuildNode InMemoryStore.empty) = _
    rw [relFold_eq]
  refine ⟨?_, ?_, ?_⟩
  · rw [InMemoryStore.getEntityCount, InMemoryStore.getEntityCount, hre]
    have := congrArg List.length hfst
    simpa [InMemoryStore.empty] using this
  · rw [InMemoryStore.getRelationshipCount, InMemoryStore.getRelationshipCount, hre]
    simp only [List.length_append, hrels]
    simp [InMemoryStore.empty]
  · intro k n h
    refine ⟨rebuiltNode n, ?_, rfl, rfl, ?_⟩
    · rw [hre]
      exact hnodes (k, n) (lookupKey_some_mem h)
    · intro x
      show x ∈ setUpdate [] n.descriptions ↔ x ∈ n.descriptions
      simp [mem_setUpdate]


/-- Closed instance of c3_roundtrip_preserves on the two-entity store. -/
theorem c3_roundtrip_witness :
    WFStore storeAB ∧
    ((rebuildStore storeAB.toDict).getEntityCount = storeAB.getEntityCount ∧
     (rebuildStore storeAB.toDict).getRelationshipCount = storeAB.getRelationshipCount ∧
     ∀ k n, lookupKey k storeAB.nodes = some n →
       ∃ n2, lookupKey k (rebuildStore storeAB.toDict).nodes = some n2 ∧
         n2.type = n.type ∧ n2.name = n.name ∧
         (∀ x, x ∈ n2.descriptions ↔ x ∈ n.descriptions)) := by
  exact ⟨⟨by decide, by decide⟩, c3_roundtrip_preserves storeAB ⟨by decide, by decide⟩⟩

end PlanOpticon
